import Mathlib

/-!
Shallow embedding of the Keepa Excel merger pipeline (`app.py`).

Modelling conventions:
* A spreadsheet cell is `Cell`: missing (`na`, pandas `NaN`/`NaT`/`None`),
  a numeric value (exact rational standing for the float), a string, or a
  timestamp.  A timestamp is a pair of a day ordinal (an integer, ordered
  like calendar dates) and a time-of-day component; date-only comparisons
  use the day ordinal, mirroring `.date()` / `.dt.date` in the code.
* A table row is a total function from column names to cells; a column
  that a table does not have reads as `na`.  A `Table` is the ordered
  column-name list together with the ordered row list, mirroring a
  `DataFrame`.
* Float arithmetic on prices is modelled over `Option ℚ` (`none` = NaN)
  with IEEE-style division producing `FVal` (NaN / +inf / -inf / finite),
  exactly the cases pandas produces for `(定価 - 販売価格) / 定価`.
-/

inductive Cell where
  | na : Cell
  | num : ℚ → Cell
  | str : String → Cell
  | date : ℤ → ℕ → Cell
deriving DecidableEq

abbrev Row := String → Cell

def defaultRow : Row := fun _ => Cell.na

/-- Build a row from an association list; absent columns read as `na`. -/
def mkRow (l : List (String × Cell)) : Row :=
  fun c => (((l.find? (fun p => p.1 == c)).map Prod.snd).getD Cell.na)

structure Table where
  cols : List String
  rows : List Row

def emptyTable : Table := ⟨[], []⟩

/-- pandas elementwise `==`: a comparison involving NaN is `False`. -/
def pandasEq (a b : Cell) : Bool :=
  match a, b with
  | Cell.na, _ => false
  | _, Cell.na => false
  | a, b => decide (a = b)

/-- numeric values of a list of cells (pandas `skipna` view of a series) -/
def numVals (l : List Cell) : List ℚ :=
  l.filterMap (fun c => match c with | Cell.num q => some q | _ => none)

/-- `load_sale_periods` (app.py:23-35): reads `sale_periods.csv`; on
`FileNotFoundError` or any other exception it shows one `st.error` and
returns the empty catalog.  The file-system outcome is a parameter; a
successfully parsed CSV row is a (start day, end day, label) triple with
day ordinals ordered like the ISO dates in the file.  The result pairs the
catalog with the number of error reports emitted. -/
inductive LoadOutcome where
  | ok : List (ℤ × ℤ × String) → LoadOutcome
  | fileNotFound : LoadOutcome
  | malformed : LoadOutcome

def load_sale_periods : LoadOutcome → List (ℤ × ℤ × String) × ℕ
  | LoadOutcome.ok rows => (rows, 0)
  | LoadOutcome.fileNotFound => ([], 1)
  | LoadOutcome.malformed => ([], 1)

/-- `classify_sale` (app.py:39-55): `None` for a missing date; otherwise
drop the time component and return the label of the first catalog entry
whose closed interval `[start, end]` contains the day. -/
def classify_sale (periods : List (ℤ × ℤ × String)) (target : Option (ℤ × ℕ)) :
    Option String :=
  match target with
  | none => none
  | some (d, _) =>
      (periods.find? (fun p => decide (p.1 ≤ d) && decide (d ≤ p.2.1))).map
        (fun p => p.2.2)

/-! ### Float model for the discount-ratio computation (app.py:311-313) -/

/-- Result of the float division `(定価 - 販売価格) / 定価`. -/
inductive FVal where
  | nan : FVal
  | pinf : FVal
  | ninf : FVal
  | num : ℚ → FVal
deriving DecidableEq

/-- A price cell as a float: finite value or NaN (non-numeric cells in a
numeric pandas column read as NaN). -/
def toF : Cell → Option ℚ
  | Cell.num q => some q
  | _ => none

/-- float subtraction on finite-or-NaN operands: NaN propagates. -/
def fsub : Option ℚ → Option ℚ → Option ℚ
  | some a, some b => some (a - b)
  | _, _ => none

/-- float division of a finite-or-NaN numerator by a finite-or-NaN
denominator, the cases IEEE 754 (and hence pandas) produces:
`x/0` is `+inf`/`-inf` for positive/negative `x`, `0/0` is NaN, and NaN
propagates. -/
def fdiv : Option ℚ → Option ℚ → FVal
  | some a, some b =>
      if b = 0 then
        if 0 < a then FVal.pinf else if a < 0 then FVal.ninf else FVal.nan
      else FVal.num (a / b)
  | _, _ => FVal.nan

/-- float `>= c` for a rational constant `c`: true for `+inf`, false for
NaN and `-inf`. -/
def fge : FVal → ℚ → Bool
  | FVal.pinf, _ => true
  | FVal.num a, c => decide (c ≤ a)
  | _, _ => false

/-- `値下げ率` (app.py:312): `(sale_df["定価"] - sale_df["販売価格"]) / sale_df["定価"]`. -/
def discountRatio (r : Row) : FVal :=
  fdiv (fsub (toF (r "定価")) (toF (r "販売価格"))) (toF (r "定価"))

/-- app.py:313: a row participates when `値下げ率 >= 0.05`. -/
def participates (r : Row) : Bool :=
  fge (discountRatio r) (5 / 100)

/-! ### Category attribution (app.py:372-387) -/

/-- app.py:372: columns of the form `BSR[...]`. -/
def isBSRCol (c : String) : Bool :=
  c.startsWith "BSR[" && c.endsWith "]"

def bsrColumnsOf (cols : List String) : List String :=
  cols.filter isBSRCol

/-- `col[4:-1]`: strip the leading `BSR[` and the trailing `]`. -/
def stripBSR (c : String) : String :=
  (c.drop 4).dropRight 1

/-- `get_primary_category` (app.py:376-385): scan the BSR columns in
column order keeping the first strictly-smaller present value; return the
bracket-stripped name of the winner, `none` when no BSR column has a
present value.  Non-numeric cells read as missing (`pd.notna` fails). -/
def get_primary_category (bsrCols : List String) (r : Row) : Option String :=
  (bsrCols.foldl
    (fun acc col =>
      match r col with
      | Cell.num v =>
          match acc with
          | none => some (v, col)
          | some (mv, mc) => if v < mv then some (v, col) else some (mv, mc)
      | _ => acc)
    none).map (fun p => stripBSR p.2)

/-! ### Multi-table merge (app.py:205-207) -/

/-- first-seen-order union of the input tables' column lists, the column
order `pd.concat(..., sort=False)` produces. -/
def unionCols (ts : List Table) : List String :=
  ts.foldl (fun acc t => acc ++ t.cols.filter (fun c => decide (c ∉ acc))) []

/-- reindexing one table's row to the merged column set: a column the
table lacks reads as missing. -/
def maskRow (t : Table) (r : Row) : Row :=
  fun c => if c ∈ t.cols then r c else Cell.na

/-- `pd.concat(all_data, ignore_index=True, sort=False)` (app.py:207):
rows concatenated in input order, column set the first-seen union,
absent columns filled with missing values. -/
def mergeTables (ts : List Table) : Table :=
  ⟨unionCols ts, (ts.map (fun t => t.rows.map (maskRow t))).flatten⟩

/-- row count of the tables before position `i` (the offset at which
table `i`'s rows start in the merged table). -/
def rowOffset (ts : List Table) (i : ℕ) : ℕ :=
  ((ts.take i).map (fun t => t.rows.length)).sum

/-! ### Date-range filter (app.py:276-287) -/

/-- The date-range filter: when `start_date <= end_date`, keep the rows
whose date cell's day ordinal lies in `[start, end]` (rows whose date
cell is missing or non-temporal fail the mask); otherwise report the
input error (`st.error`) and leave the table unfiltered.  Returns the
resulting rows and whether the error was reported. -/
def dateRangeFilter (rows : List Row) (dateCol : String) (startD endD : ℤ) :
    List Row × Bool :=
  if startD ≤ endD then
    (rows.filter (fun r =>
        match r dateCol with
        | Cell.date d _ => decide (startD ≤ d) && decide (d ≤ endD)
        | _ => false), false)
  else (rows, true)

/-! ### Participation aggregation (app.py:293-343) -/

/-- `Series.unique()`: distinct values in first-seen order. -/
def uniqueCells : List Cell → List Cell
  | [] => []
  | a :: l => a :: uniqueCells (l.filter (fun b => decide (b ≠ a)))
termination_by l => l.length
decreasing_by
  simpa using Nat.lt_succ_of_le (List.length_filter_le _ _)

/-- minimum of a list of rationals (`Series.min()` over the present
values), `none` for the empty list. -/
def listMin : List ℚ → Option ℚ
  | [] => none
  | a :: l =>
      match listMin l with
      | none => some a
      | some m => some (min a m)

/-- maximum of a list of rationals (`Series.max()` over the present
values), `none` for the empty list. -/
def listMax : List ℚ → Option ℚ
  | [] => none
  | a :: l =>
      match listMax l with
      | none => some a
      | some m => some (max a m)

/-- the largest multiplicity occurring in the list. -/
def maxCount (l : List ℚ) : ℕ :=
  (l.map (fun v => l.count v)).foldr max 0

/-- `Series.mode()[0]`: pandas `mode()` lists the values of maximal
multiplicity in ascending order, so index 0 is the smallest such value;
the result is `none` exactly when the series has no present value. -/
def modeHead (l : List ℚ) : Option ℚ :=
  listMin (l.filter (fun v => decide (l.count v = maxCount l)))

/-- `Series.mean()` over the present values; NaN (`none`) when there are
none. -/
def meanOpt (l : List ℚ) : Option ℚ :=
  if l = [] then none else some (l.sum / l.length)

/-- `s.mode()[0] if not s.mode().empty else s.mean()` (app.py:327/329). -/
def modeOrMean (l : List ℚ) : Option ℚ :=
  match modeHead l with
  | some m => some m
  | none => meanOpt l

/-- Python `round` to an integer: round half to even. -/
def roundHalfEven (q : ℚ) : ℤ :=
  if q - ⌊q⌋ < 1 / 2 then ⌊q⌋
  else if (1 : ℚ) / 2 < q - ⌊q⌋ then ⌊q⌋ + 1
  else if 2 ∣ ⌊q⌋ then ⌊q⌋ else ⌊q⌋ + 1

/-- Python `round(x, 1)` on the exact rational value. -/
def round1 (q : ℚ) : ℚ :=
  (roundHalfEven (10 * q) : ℚ) / 10

/-- One line of the summary table (app.py:335-343). -/
structure SummaryRecord where
  asin : Cell
  saleType : String
  latestBSR : Cell
  participationRate : ℚ
  listPrice : Option ℚ
  minPrice : Option ℚ
  maxPrice : Option ℚ
deriving DecidableEq

/-- The three sale labels iterated at app.py:307. -/
def saleTypes : List String := ["MDE", "ビッグセール", "ビッグセールのアーリー"]

/-- `asin_df.sort_values(date_column, ascending=False).iloc[0]`
(app.py:303): the row with the maximal timestamp in the date column
(first occurrence on ties, rows without a timestamp sorted last); when no
row has a timestamp, the first row. -/
def latestRow (dateCol : String) (rows : List Row) : Option Row :=
  match rows.foldl
      (fun acc r =>
        match r dateCol with
        | Cell.date d td =>
            match acc with
            | none => some (d, td, r)
            | some (d0, td0, r0) =>
                if d0 < d ∨ (d0 = d ∧ td0 < td) then some (d, td, r)
                else some (d0, td0, r0)
        | _ => acc)
      none with
  | some p => some p.2.2
  | none => rows.head?

/-- The per-(ASIN, sale-type) body of the aggregation loop
(app.py:308-343): select the label subset; when it is empty emit nothing,
otherwise emit the record with participation rate (rounded to one
decimal), mode-or-mean reference price, and min/max sale price over the
participating rows. -/
def aggregatePair (latest : Cell) (asin : Cell) (asinRows : List Row)
    (saleType : String) : Option SummaryRecord :=
  let sale_df := asinRows.filter (fun r => pandasEq (r "セール分類") (Cell.str saleType))
  if 0 < sale_df.length then
    let participated := sale_df.filter participates
    let total_days := sale_df.length
    let participated_days := participated.length
    let participation_rate : ℚ :=
      if 0 < total_days then (participated_days : ℚ) / (total_days : ℚ) * 100 else 0
    let list_price : Option ℚ :=
      if 0 < participated.length then modeOrMean (numVals (participated.map (fun r => r "定価")))
      else modeOrMean (numVals (sale_df.map (fun r => r "定価")))
    let min_price : Option ℚ :=
      if 0 < participated.length then listMin (numVals (participated.map (fun r => r "販売価格")))
      else none
    let max_price : Option ℚ :=
      if 0 < participated.length then listMax (numVals (participated.map (fun r => r "販売価格")))
      else none
    some ⟨asin, saleType, latest, round1 participation_rate, list_price,
          min_price, max_price⟩
  else none

/-- The summary-data generation (app.py:293-343): guarded on the presence
of the `セール分類`, `定価` and `販売価格` columns; then for each distinct
ASIN value (first-seen order) and each of the three sale types, the
per-pair aggregation, with the most-recent `サブカテゴリーBSR` taken from
the latest-dated row of the ASIN's subset irrespective of label. -/
def summary_data (t : Table) (dateCol : String) : List SummaryRecord :=
  if "セール分類" ∈ t.cols ∧ "定価" ∈ t.cols ∧ "販売価格" ∈ t.cols then
    (uniqueCells (t.rows.map (fun r => r "ASIN"))).flatMap (fun asin =>
      let asin_df := t.rows.filter (fun r => pandasEq (r "ASIN") asin)
      let latest : Cell :=
        if "サブカテゴリーBSR" ∈ t.cols then
          match latestRow dateCol asin_df with
          | some r => r "サブカテゴリーBSR"
          | none => Cell.na
        else Cell.na
      saleTypes.filterMap (fun saleType => aggregatePair latest asin asin_df saleType))
  else []

/-! ### Per-file enrichment (app.py:140-194) -/

/-- insert an element at position `i` of a list (`df.insert`). -/
def insertAt (i : ℕ) (x : α) (l : List α) : List α :=
  l.take i ++ x :: l.drop i

/-- `df[name] = series` where the series is computed row-wise from the
current table: overwrites the column if present, appends it at the end
otherwise. -/
def setCol (name : String) (f : Row → Cell) (t : Table) : Table :=
  ⟨if name ∈ t.cols then t.cols else t.cols ++ [name],
   t.rows.map (fun r c => if c = name then f r else r c)⟩

/-- `df.insert(0, "ASIN", asin)` (app.py:140). -/
def insertASINCol (asin : String) (t : Table) : Table :=
  ⟨"ASIN" :: t.cols,
   t.rows.map (fun r c => if c = "ASIN" then Cell.str asin else r c)⟩

/-- the date column looked up at app.py:143-147: `日付` preferred, then
`Date`. -/
def dateColOf (t : Table) : Option String :=
  if "日付" ∈ t.cols then some "日付"
  else if "Date" ∈ t.cols then some "Date" else none

/-- `pd.to_datetime(col, errors='coerce')` on the cell kinds occurring in
a Keepa sheet: temporal cells kept, everything else coerced to missing. -/
def coerceDate : Cell → Cell
  | Cell.date d td => Cell.date d td
  | _ => Cell.na

/-- a coerced cell as the classifier's input timestamp. -/
def toTimestamp : Cell → Option (ℤ × ℕ)
  | Cell.date d td => some (d, td)
  | _ => none

/-- the `セール分類` cell computed from a (coerced) date cell. -/
def classifyCell (periods : List (ℤ × ℤ × String)) (c : Cell) : Cell :=
  match classify_sale periods (toTimestamp c) with
  | some s => Cell.str s
  | none => Cell.na

/-- the body of app.py:149-153 for a found date column `dc`: coerce the
date column and insert `セール分類` at position 2. -/
def classifyApply (periods : List (ℤ × ℤ × String)) (dc : String) (t : Table) :
    Table :=
  ⟨insertAt 2 "セール分類" t.cols,
   (t.rows.map (fun r c => if c = dc then coerceDate (r c) else r c)).map
     (fun r c => if c = "セール分類" then classifyCell periods (r dc) else r c)⟩

/-- app.py:149-153: when a date column exists, coerce it to datetimes and
insert the `セール分類` column at position 2, computed per row by
`classify_sale` on the coerced date. -/
def classifyStep (periods : List (ℤ × ℤ × String)) (t : Table) : Table :=
  match dateColOf t with
  | none => t
  | some dc => classifyApply periods dc t

/-- `df[[fba_col, list_col]].max(axis=1)`: row-wise maximum skipping
missing values. -/
def cellMax (a b : Cell) : Cell :=
  match a, b with
  | Cell.num x, Cell.num y => Cell.num (max x y)
  | Cell.num x, _ => Cell.num x
  | _, Cell.num y => Cell.num y
  | _, _ => Cell.na

/-- app.py:157: the FBA legacy column name, spaced spelling preferred. -/
def fbaColOf (t : Table) : String :=
  if "FBA 価格(￥)" ∈ t.cols then "FBA 価格(￥)" else "FBA価格(￥)"

/-- app.py:158: the List legacy column name, spaced spelling preferred. -/
def listColOf (t : Table) : String :=
  if "List 価格(￥)" ∈ t.cols then "List 価格(￥)" else "List価格(￥)"

/-- app.py:156-165: derive `定価` from the FBA/List legacy columns, each
looked up under its spaced spelling first, then its unspaced spelling. -/
def deriveTeika (t : Table) : Table :=
  if fbaColOf t ∈ t.cols ∧ listColOf t ∈ t.cols then
    setCol "定価" (fun r => cellMax (r (fbaColOf t)) (r (listColOf t))) t
  else if fbaColOf t ∈ t.cols then
    setCol "定価" (fun r => r (fbaColOf t)) t
  else if listColOf t ∈ t.cols then
    setCol "定価" (fun r => r (listColOf t)) t
  else t

/-- app.py:168: the Buybox legacy column name, spaced spelling
preferred. -/
def buyboxColOf (t : Table) : String :=
  if "Buybox 価格(￥)" ∈ t.cols then "Buybox 価格(￥)" else "Buybox価格(￥)"

/-- app.py:167-170: derive `販売価格` from the Buybox column. -/
def deriveHanbai (t : Table) : Table :=
  if buyboxColOf t ∈ t.cols then
    setCol "販売価格" (fun r => r (buyboxColOf t)) t
  else t

/-- `df[bsr_columns].min(axis=1)`: row-wise minimum over the present
values, missing when none is present. -/
def cellMinOver (cs : List String) (r : Row) : Cell :=
  match listMin (numVals (cs.map r)) with
  | some m => Cell.num m
  | none => Cell.na

/-- app.py:172-175: derive `サブカテゴリーBSR` from the `BSR[...]`
columns when at least one exists. -/
def deriveSubBSR (t : Table) : Table :=
  let bsrCols := bsrColumnsOf t.cols
  if bsrCols ≠ [] then setCol "サブカテゴリーBSR" (cellMinOver bsrCols) t
  else t

/-- the fixed legacy-column drop list (app.py:178-191). -/
def colsToDrop : List String :=
  ["Buybox 価格(￥)", "Buybox価格(￥)",
   "価格(￥)",
   "Prime 価格(￥)", "Prime価格(￥)",
   "Coupon 価格(￥)", "Coupon価格(￥)",
   "Coupon 割引", "Coupon割引",
   "Deal 価格(￥)", "Deal価格(￥)",
   "Deal 価格情報", "Deal価格情報",
   "FBA 価格(￥)", "FBA価格(￥)",
   "FBM 価格(￥)", "FBM価格(￥)",
   "List 価格(￥)", "List価格(￥)",
   "販売数(子)",
   "評価", "評価数", "セラー数"]

/-- `df.drop(columns=...)` of the legacy columns that are present
(app.py:193-194); a dropped column reads as missing afterwards. -/
def dropLegacy (t : Table) : Table :=
  ⟨t.cols.filter (fun c => decide (c ∉ colsToDrop)),
   t.rows.map (fun r c => if c ∈ colsToDrop then Cell.na else r c)⟩

/-- the whole per-file enrichment (app.py:140-194) in source order. -/
def enrichTable (periods : List (ℤ × ℤ × String)) (asin : String) (t : Table) :
    Table :=
  dropLegacy (deriveSubBSR (deriveHanbai (deriveTeika (classifyStep periods
    (insertASINCol asin t)))))

/-! ### Spec-side definitions used by the theorem statements -/

/-- the (identifier, label) subset of a table: rows whose ASIN cell and
whose sale-classification cell match (pandas `==` semantics). -/
def labelSubset (t : Table) (asin : Cell) (saleType : String) : List Row :=
  t.rows.filter (fun r =>
    pandasEq (r "ASIN") asin && pandasEq (r "セール分類") (Cell.str saleType))

/-- `m` is a statistical mode of `l`: it occurs, and no value occurs more
often. -/
def isMode (l : List ℚ) (m : ℚ) : Prop :=
  m ∈ l ∧ ∀ v ∈ l, l.count v ≤ l.count m

/-- the (value, column) pairs of the BSR columns with a present numeric
value on a row, in column order. -/
def presentPairs (bsrCols : List String) (r : Row) : List (ℚ × String) :=
  bsrCols.filterMap (fun c =>
    match r c with
    | Cell.num v => some (v, c)
    | _ => none)

/-- one step of a first-minimum scan: replace the accumulator only on a
strictly smaller value. -/
def minFirstStep (acc : Option (ℚ × String)) (p : ℚ × String) :
    Option (ℚ × String) :=
  match acc with
  | none => some p
  | some m => if p.1 < m.1 then some p else some m

/-- first minimum of a (value, column) list: the earliest pair whose
value is minimal. -/
def minFirst : List (ℚ × String) → Option (ℚ × String)
  | [] => none
  | x :: xs =>
      match minFirst xs with
      | none => some x
      | some y => if y.1 < x.1 then some y else some x

/-! ### Concrete inputs for witnesses and counterexamples -/

def cexRow1 : Row := mkRow [("ASIN", Cell.str "A"), ("日付", Cell.date 100 0),
  ("セール分類", Cell.str "MDE"), ("定価", Cell.num 100), ("販売価格", Cell.num 90)]
def cexRow2 : Row := mkRow [("ASIN", Cell.str "A"), ("日付", Cell.date 101 0),
  ("セール分類", Cell.str "MDE"), ("定価", Cell.num 100), ("販売価格", Cell.num 99)]
def cexRow3 : Row := mkRow [("ASIN", Cell.str "A"), ("日付", Cell.date 102 0),
  ("セール分類", Cell.str "MDE"), ("定価", Cell.num 100), ("販売価格", Cell.num 99)]

/-- one ASIN, label `MDE`, three rows, exactly one of which is discounted
by at least 5%. -/
def cexTable : Table :=
  ⟨["ASIN", "日付", "セール分類", "定価", "販売価格"], [cexRow1, cexRow2, cexRow3]⟩

/-- the record the aggregation emits for `cexTable`. -/
def cexRec : SummaryRecord :=
  ⟨Cell.str "A", "MDE", Cell.na, 333 / 10, some 100, some 90, some 90⟩

/-- a table whose three mandatory summary columns are not all present. -/
def noTeikaTable : Table :=
  ⟨["ASIN", "セール分類", "販売価格"], [mkRow [("ASIN", Cell.str "A")]]⟩

/-- a row whose list price is zero and whose sale price is positive. -/
def zeroPriceRow : Row := mkRow [("定価", Cell.num 0), ("販売価格", Cell.num 80)]

/-- the tie-example row of the spec: `BSR[Toys]=500`, `BSR[Games]=200`. -/
def toysGamesRow : Row :=
  mkRow [("BSR[Toys]", Cell.num 500), ("BSR[Games]", Cell.num 200)]

def exPeriods : List (ℤ × ℤ × String) := [(0, 10, "A"), (5, 20, "B")]

def exMergeT1 : Table := ⟨["a"], [mkRow [("a", Cell.num 1)]]⟩
def exMergeT2 : Table :=
  ⟨["b"], [mkRow [("b", Cell.num 2)], mkRow [("b", Cell.num 3)]]⟩

def exDateRowIn : Row := mkRow [("日付", Cell.date 5 7)]
def exDateRowOut : Row := mkRow [("日付", Cell.date 42 0)]
def exDateRowNa : Row := mkRow []

/-- a table carrying both a spaced FBA column and an unspaced List
column. -/
def exEnrichT : Table :=
  ⟨["日付", "FBA 価格(￥)", "List価格(￥)"],
   [mkRow [("日付", Cell.date 5 0), ("FBA 価格(￥)", Cell.num 3),
           ("List価格(￥)", Cell.num 7)]]⟩

/-! ### Helper lemmas -/

theorem find?_first {α : Type _} (p : α → Bool) (l : List α) (a : α)
    (h : l.find? p = some a) :
    ∃ l1 l2, l = l1 ++ a :: l2 ∧ p a = true ∧ ∀ x ∈ l1, p x = false := by
  induction l with
  | nil => simp at h
  | cons x xs ih =>
      by_cases hx : p x = true
      · rw [List.find?_cons_of_pos _ hx] at h
        obtain rfl : x = a := by injection h
        exact ⟨[], xs, rfl, hx, by simp⟩
      · rw [List.find?_cons_of_neg _ hx] at h
        obtain ⟨l1, l2, rfl, hpa, hneg⟩ := ih h
        refine ⟨x :: l1, l2, rfl, hpa, ?_⟩
        intro y hy
        rcases List.mem_cons.mp hy with rfl | hy
        · simpa using hx
        · exact hneg y hy

/-- C2: for every date and catalog, `classify_sale` is `none` on a
missing date, is `none` on a present date exactly when no catalog
interval contains its day (bounds inclusive on both ends), and otherwise
returns the label of the first containing interval in catalog order. -/
theorem classify_sale_spec (ps : List (ℤ × ℤ × String)) (d : ℤ) (td : ℕ) :
    classify_sale ps none = none
    ∧ (classify_sale ps (some (d, td)) = none ↔
        ∀ p ∈ ps, ¬(p.1 ≤ d ∧ d ≤ p.2.1))
    ∧ (∀ lab, classify_sale ps (some (d, td)) = some lab →
        ∃ l1 p l2, ps = l1 ++ p :: l2 ∧ p.1 ≤ d ∧ d ≤ p.2.1 ∧ lab = p.2.2 ∧
          ∀ q ∈ l1, ¬(q.1 ≤ d ∧ d ≤ q.2.1)) := by
  refine ⟨rfl, ?_, ?_⟩
  · rw [show classify_sale ps (some (d, td))
        = (ps.find? fun p => decide (p.1 ≤ d) && decide (d ≤ p.2.1)).map
            (fun p => p.2.2) from rfl,
      Option.map_eq_none', List.find?_eq_none]
    constructor
    · intro h p hp
      have hb := h p hp
      simp only [Bool.and_eq_true, decide_eq_true_eq] at hb
      exact hb
    · intro h p hp
      simp only [Bool.and_eq_true, decide_eq_true_eq]
      exact h p hp
  · intro lab h
    simp only [classify_sale, Option.map_eq_some'] at h
    obtain ⟨p, hfind, hlab⟩ := h
    obtain ⟨l1, l2, rfl, hpa, hneg⟩ := find?_first _ _ _ hfind
    simp only [Bool.and_eq_true, decide_eq_true_eq] at hpa
    refine ⟨l1, p, l2, rfl, hpa.1, hpa.2, hlab.symm, ?_⟩
    intro q hq hcontra
    have htrue : (decide (q.1 ≤ d) && decide (d ≤ q.2.1)) = true := by
      simp [hcontra.1, hcontra.2]
    rw [hneg q hq] at htrue
    simp at htrue

theorem classify_sale_spec_witness :
    ∃ l1 p l2, exPeriods = l1 ++ p :: l2 ∧ p.1 ≤ (7 : ℤ) ∧ (7 : ℤ) ≤ p.2.1 ∧
      "A" = p.2.2 ∧ ∀ q ∈ l1, ¬(q.1 ≤ (7 : ℤ) ∧ (7 : ℤ) ≤ q.2.1) :=
  (classify_sale_spec exPeriods 7 3).2.2 "A" (by decide)

/-- C7: when the sale-period CSV is missing or malformed the load
returns the empty catalog, reports the failure exactly once, and the
classifier thereafter returns `none` for every input date. -/
theorem load_failure_degrades (o : LoadOutcome)
    (h : o = LoadOutcome.fileNotFound ∨ o = LoadOutcome.malformed) :
    (load_sale_periods o).1 = []
    ∧ (load_sale_periods o).2 = 1
    ∧ ∀ target, classify_sale (load_sale_periods o).1 target = none := by
  have hcl : ∀ target, classify_sale [] target = none := by
    intro target
    cases target with
    | none => rfl
    | some p => cases p; rfl
  rcases h with rfl | rfl
  · exact ⟨rfl, rfl, hcl⟩
  · exact ⟨rfl, rfl, hcl⟩

theorem load_failure_degrades_witness :
    (load_sale_periods LoadOutcome.fileNotFound).1 = []
    ∧ (load_sale_periods LoadOutcome.fileNotFound).2 = 1
    ∧ ∀ target,
        classify_sale (load_sale_periods LoadOutcome.fileNotFound).1 target = none :=
  load_failure_degrades LoadOutcome.fileNotFound (Or.inl rfl)

/-- C10: the discount-ratio computation divides by the list price with no
zero guard, yet on a row whose list price is missing or zero it still
yields a defined value (NaN or negative infinity when the sale price is
non-negative or missing), and such a row is never counted as
participating. -/
theorem discount_zero_safe (r : Row)
    (hL : r "定価" = Cell.na ∨ r "定価" = Cell.num 0)
    (hS : ∀ s, r "販売価格" = Cell.num s → 0 ≤ s) :
    (discountRatio r = FVal.nan ∨ discountRatio r = FVal.ninf)
    ∧ participates r = false := by
  have hval : discountRatio r = FVal.nan ∨ discountRatio r = FVal.ninf := by
    rcases hL with hL | hL
    · left
      simp [discountRatio, hL, toF, fsub, fdiv]
    · cases hSv : r "販売価格" with
      | num s =>
          have hs : 0 ≤ s := hS s hSv
          rcases eq_or_lt_of_le hs with hs0 | hs0
          · left
            simp [discountRatio, hL, hSv, toF, fsub, fdiv, ← hs0]
          · right
            have h3 : ¬s < 0 := by linarith
            simp [discountRatio, hL, hSv, toF, fsub, fdiv, h3, hs0]
      | na => left; simp [discountRatio, hL, hSv, toF, fsub, fdiv]
      | str s => left; simp [discountRatio, hL, hSv, toF, fsub, fdiv]
      | date d td => left; simp [discountRatio, hL, hSv, toF, fsub, fdiv]
  refine ⟨hval, ?_⟩
  rcases hval with hval | hval <;> simp [participates, hval, fge]

theorem discount_zero_safe_witness :
    (discountRatio zeroPriceRow = FVal.nan ∨ discountRatio zeroPriceRow = FVal.ninf)
    ∧ participates zeroPriceRow = false :=
  discount_zero_safe zeroPriceRow (by right; decide)
    (by
      intro s h
      have h80 : zeroPriceRow "販売価格" = Cell.num 80 := by decide
      rw [h80] at h
      injection h with h2
      rw [← h2]
      norm_num)

/-- C9: when any of the `セール分類`, `定価`, `販売価格` columns is
missing from the filtered merged table, the aggregation yields the empty
record sequence (and hence records exist only when all three columns are
present). -/
theorem summary_guard (t : Table) (dateCol : String)
    (h : "セール分類" ∉ t.cols ∨ "定価" ∉ t.cols ∨ "販売価格" ∉ t.cols) :
    summary_data t dateCol = [] := by
  rcases h with h | h | h <;> simp [summary_data, h]

theorem summary_guard_witness : summary_data noTeikaTable "日付" = [] :=
  summary_guard noTeikaTable "日付" (Or.inr (Or.inl (by decide)))

/-- C6: with `start <= end` the date-range filter keeps exactly the rows
whose date cell is present and whose day ordinal (the date portion,
ignoring time of day) lies between the bounds inclusively — in
particular every row with a missing date is dropped; with `start > end`
the error is reported and the table passes through unfiltered. -/
theorem dateRangeFilter_spec (rows : List Row) (dateCol : String) (s e : ℤ) :
    (s ≤ e →
      (dateRangeFilter rows dateCol s e).2 = false
      ∧ ∀ r, r ∈ (dateRangeFilter rows dateCol s e).1 ↔
          r ∈ rows ∧ ∃ d td, r dateCol = Cell.date d td ∧ s ≤ d ∧ d ≤ e)
    ∧ (e < s → dateRangeFilter rows dateCol s e = (rows, true)) := by
  constructor
  · intro hse
    rw [show dateRangeFilter rows dateCol s e
        = (rows.filter (fun r =>
            match r dateCol with
            | Cell.date d _ => decide (s ≤ d) && decide (d ≤ e)
            | _ => false), false) from if_pos hse]
    refine ⟨rfl, ?_⟩
    intro r
    rw [List.mem_filter]
    constructor
    · rintro ⟨hr, hp⟩
      refine ⟨hr, ?_⟩
      cases hc : r dateCol <;> rw [hc] at hp <;> simp at hp
      case date d td => exact ⟨d, td, rfl, hp.1, hp.2⟩
    · rintro ⟨hr, d, td, hc, h1, h2⟩
      refine ⟨hr, ?_⟩
      rw [hc]
      simp [h1, h2]
  · intro hes
    exact if_neg (by omega)

theorem dateRangeFilter_spec_witness :
    ((dateRangeFilter [exDateRowIn, exDateRowOut, exDateRowNa] "日付" 0 10).2 = false
      ∧ (exDateRowIn ∈ (dateRangeFilter [exDateRowIn, exDateRowOut, exDateRowNa] "日付" 0 10).1 ↔
          exDateRowIn ∈ [exDateRowIn, exDateRowOut, exDateRowNa]
            ∧ ∃ d td, exDateRowIn "日付" = Cell.date d td ∧ 0 ≤ d ∧ d ≤ 10))
    ∧ dateRangeFilter [exDateRowIn] "日付" 10 0 = ([exDateRowIn], true) :=
  ⟨⟨((dateRangeFilter_spec [exDateRowIn, exDateRowOut, exDateRowNa] "日付" 0 10).1
      (by decide)).1,
    ((dateRangeFilter_spec [exDateRowIn, exDateRowOut, exDateRowNa] "日付" 0 10).1
      (by decide)).2 exDateRowIn⟩,
   (dateRangeFilter_spec [exDateRowIn] "日付" 10 0).2 (by decide)⟩

theorem fold_eq_presentPairs (r : Row) (bsrCols : List String) :
    ∀ acc : Option (ℚ × String),
      bsrCols.foldl
        (fun acc col =>
          match r col with
          | Cell.num v =>
              match acc with
              | none => some (v, col)
              | some (mv, mc) => if v < mv then some (v, col) else some (mv, mc)
          | _ => acc) acc
      = (presentPairs bsrCols r).foldl minFirstStep acc := by
  induction bsrCols with
  | nil => intro acc; rfl
  | cons c cols ih =>
      intro acc
      cases hc : r c with
      | num v =>
          have hpp : presentPairs (c :: cols) r = (v, c) :: presentPairs cols r := by
            simp [presentPairs, List.filterMap_cons, hc]
          rw [hpp, List.foldl_cons, List.foldl_cons, hc]
          cases acc with
          | none => exact ih _
          | some m => cases m with | mk mv mc => exact ih _
      | na =>
          have hpp : presentPairs (c :: cols) r = presentPairs cols r := by
            simp [presentPairs, List.filterMap_cons, hc]
          rw [hpp, List.foldl_cons, hc]
          exact ih acc
      | str s =>
          have hpp : presentPairs (c :: cols) r = presentPairs cols r := by
            simp [presentPairs, List.filterMap_cons, hc]
          rw [hpp, List.foldl_cons, hc]
          exact ih acc
      | date d td =>
          have hpp : presentPairs (c :: cols) r = presentPairs cols r := by
            simp [presentPairs, List.filterMap_cons, hc]
          rw [hpp, List.foldl_cons, hc]
          exact ih acc

theorem foldl_minFirstStep_some (xs : List (ℚ × String)) :
    ∀ m : ℚ × String,
      xs.foldl minFirstStep (some m)
      = match minFirst xs with
        | none => some m
        | some y => if y.1 < m.1 then some y else some m := by
  induction xs with
  | nil => intro m; rfl
  | cons x xs ih =>
      intro m
      have h1 : minFirstStep (some m) x = some (if x.1 < m.1 then x else m) := by
        show (if x.1 < m.1 then some x else some m) = _
        split <;> rfl
      rw [List.foldl_cons, h1, ih]
      rcases hM : minFirst xs with _ | y
      · have h2 : minFirst (x :: xs) = some x := by
          rw [minFirst, hM]
        rw [h2]
        show some (if x.1 < m.1 then x else m) = if x.1 < m.1 then some x else some m
        split <;> rfl
      · have h2 : minFirst (x :: xs) = if y.1 < x.1 then some y else some x := by
          rw [minFirst, hM]
        rw [h2]
        by_cases hyx : y.1 < x.1
        · rw [if_pos hyx]
          show (if y.1 < (if x.1 < m.1 then x else m).1 then some y
              else some (if x.1 < m.1 then x else m))
            = if y.1 < m.1 then some y else some m
          split_ifs <;> first | rfl | (exfalso; linarith)
        · rw [if_neg hyx]
          show (if y.1 < (if x.1 < m.1 then x else m).1 then some y
              else some (if x.1 < m.1 then x else m))
            = if x.1 < m.1 then some x else some m
          push_neg at hyx
          split_ifs <;> first | rfl | (exfalso; linarith)

theorem foldl_minFirstStep_none (xs : List (ℚ × String)) :
    xs.foldl minFirstStep none = minFirst xs := by
  cases xs with
  | nil => rfl
  | cons x xs =>
      rw [List.foldl_cons, show minFirstStep none x = some x from rfl,
        foldl_minFirstStep_some, minFirst]

theorem minFirst_eq_none (xs : List (ℚ × String)) :
    minFirst xs = none ↔ xs = [] := by
  cases xs with
  | nil => simp [minFirst]
  | cons x xs =>
      simp only [List.cons_ne_nil, iff_false]
      rcases hM : minFirst xs with _ | y
      · rw [minFirst, hM]
        simp
      · rw [minFirst, hM]
        show ¬((if y.1 < x.1 then some y else some x) = none)
        split_ifs <;> simp

theorem minFirst_eq_some (xs : List (ℚ × String)) (p : ℚ × String)
    (h : minFirst xs = some p) :
    ∃ l1 l2, xs = l1 ++ p :: l2 ∧ (∀ q ∈ l1, p.1 < q.1) ∧ ∀ q ∈ l2, p.1 ≤ q.1 := by
  induction xs generalizing p with
  | nil => simp [minFirst] at h
  | cons x xs ih =>
      rcases hM : minFirst xs with _ | y
      · rw [minFirst, hM] at h
        have h2 : some x = some p := h
        obtain rfl : x = p := by injection h2
        obtain rfl : xs = [] := (minFirst_eq_none xs).mp hM
        exact ⟨[], [], rfl, by simp, by simp⟩
      · rw [minFirst, hM] at h
        have h2 : (if y.1 < x.1 then some y else some x) = some p := h
        obtain ⟨l1, l2, rfl, hlt, hle⟩ := ih y hM
        split_ifs at h2 with hyx
        · obtain rfl : y = p := by injection h2
          refine ⟨x :: l1, l2, rfl, ?_, hle⟩
          intro q hq
          rcases List.mem_cons.mp hq with rfl | hq
          · exact hyx
          · exact hlt q hq
        · obtain rfl : x = p := by injection h2
          refine ⟨[], l1 ++ y :: l2, rfl, by simp, ?_⟩
          intro q hq
          push_neg at hyx
          rcases List.mem_append.mp hq with hq | hq
          · exact le_of_lt (lt_of_le_of_lt hyx (hlt q hq))
          · rcases List.mem_cons.mp hq with rfl | hq
            · exact hyx
            · exact le_trans hyx (hle q hq)

/-- C8: per row, category attribution picks, among the `BSR[...]` columns
with a present value, the first column in column order whose value is
minimal (earlier present columns have strictly larger values, later ones
no smaller values), returning its bracket-stripped name; it returns
`none` exactly when no BSR column has a present value on the row. -/
theorem get_primary_category_spec (bsrCols : List String) (r : Row) :
    (get_primary_category bsrCols r = none ↔ presentPairs bsrCols r = [])
    ∧ ∀ s, get_primary_category bsrCols r = some s →
        ∃ l1 v c l2, presentPairs bsrCols r = l1 ++ (v, c) :: l2
          ∧ s = stripBSR c
          ∧ (∀ q ∈ l1, v < q.1) ∧ ∀ q ∈ l2, v ≤ q.1 := by
  have hfold : get_primary_category bsrCols r
      = (minFirst (presentPairs bsrCols r)).map (fun p => stripBSR p.2) := by
    rw [get_primary_category, fold_eq_presentPairs r bsrCols none,
      foldl_minFirstStep_none]
  constructor
  · rw [hfold, Option.map_eq_none', minFirst_eq_none]
  · intro s hs
    rw [hfold, Option.map_eq_some'] at hs
    obtain ⟨p, hp, hstrip⟩ := hs
    obtain ⟨l1, l2, hsplit, hlt, hle⟩ := minFirst_eq_some _ p hp
    exact ⟨l1, p.1, p.2, l2, by simpa using hsplit, hstrip.symm, hlt, hle⟩

theorem get_primary_category_spec_witness :
    get_primary_category ["BSR[Toys]", "BSR[Games]"] toysGamesRow = some "Games"
    ∧ ∃ l1 v c l2,
        presentPairs ["BSR[Toys]", "BSR[Games]"] toysGamesRow = l1 ++ (v, c) :: l2
        ∧ "Games" = stripBSR c
        ∧ (∀ q ∈ l1, v < q.1) ∧ ∀ q ∈ l2, v ≤ q.1 :=
  ⟨by decide,
   (get_primary_category_spec ["BSR[Toys]", "BSR[Games]"] toysGamesRow).2 "Games"
     (by decide)⟩

theorem take_len_append {α : Type _} : ∀ (l r : List α), (l ++ r).take l.length = l
  | [], _ => by simp
  | a :: l, r => by simp [take_len_append l r]

theorem drop_len_append {α : Type _} :
    ∀ (l r : List α) (k : ℕ), (l ++ r).drop (l.length + k) = r.drop k
  | [], _, _ => by simp
  | a :: l, r, k => by
      simp [Nat.succ_add, drop_len_append l r k]

theorem unionCols_aux (ts : List Table) :
    ∀ acc : List String,
      (∀ c, c ∈ ts.foldl
          (fun acc t => acc ++ t.cols.filter (fun c => decide (c ∉ acc))) acc
        ↔ c ∈ acc ∨ ∃ t ∈ ts, c ∈ t.cols)
      ∧ (acc.Nodup → (∀ t ∈ ts, t.cols.Nodup) →
          (ts.foldl
            (fun acc t => acc ++ t.cols.filter (fun c => decide (c ∉ acc)))
            acc).Nodup) := by
  induction ts with
  | nil => intro acc; simp
  | cons t ts ih =>
      intro acc
      constructor
      · intro c
        rw [List.foldl_cons, (ih _).1 c]
        simp only [List.mem_append, List.mem_filter, decide_eq_true_eq,
          List.mem_cons]
        constructor
        · rintro (((h | h)) | ⟨t', ht', hc⟩)
          · exact Or.inl h
          · exact Or.inr ⟨t, Or.inl rfl, h.1⟩
          · exact Or.inr ⟨t', Or.inr ht', hc⟩
        · rintro (h | ⟨t', (rfl | ht'), hc⟩)
          · exact Or.inl (Or.inl h)
          · by_cases hacc : c ∈ acc
            · exact Or.inl (Or.inl hacc)
            · exact Or.inl (Or.inr ⟨hc, hacc⟩)
          · exact Or.inr ⟨t', ht', hc⟩
      · intro hacc hts
        rw [List.foldl_cons]
        refine (ih _).2 ?_ (fun t' ht' => hts t' (List.mem_cons_of_mem _ ht'))
        refine List.Nodup.append hacc
          ((hts t (List.mem_cons_self _ _)).filter _) ?_
        intro c hcacc hcf
        have := (List.mem_filter.mp hcf).2
        simp only [decide_eq_true_eq] at this
        exact this hcacc

theorem flatten_drop_take (ts : List Table) :
    ∀ i, i < ts.length →
      ((ts.map (fun t => t.rows.map (maskRow t))).flatten.drop (rowOffset ts i)).take
          (ts.getD i emptyTable).rows.length
        = (ts.getD i emptyTable).rows.map (maskRow (ts.getD i emptyTable)) := by
  induction ts with
  | nil => intro i h; simp at h
  | cons t ts ih =>
      intro i hi
      cases i with
      | zero =>
          have hoff : rowOffset (t :: ts) 0 = 0 := rfl
          rw [List.map_cons, List.flatten_cons, hoff, List.drop_zero,
            List.getD_cons_zero,
            show t.rows.length = (t.rows.map (maskRow t)).length from
              (List.length_map _ _).symm,
            take_len_append]
      | succ i =>
          have hoff : rowOffset (t :: ts) (i + 1)
              = t.rows.length + rowOffset ts i := by
            simp [rowOffset]
          rw [List.map_cons, List.flatten_cons, hoff, List.getD_cons_succ,
            show t.rows.length = (t.rows.map (maskRow t)).length from
              (List.length_map _ _).symm,
            drop_len_append]
          exact ih i (by simpa using hi)

/-- C3: merging an ordered sequence of tables yields sum-of-inputs many
rows; the merged column list is exactly the union of the inputs' columns
and (for inputs with duplicate-free headers) is duplicate-free, in the
first-seen order the fold produces; the block of rows coming from table
`i` starts at the offset given by the previous tables' row counts and is
table `i`'s rows in their original order, reindexed so that a column the
table lacks reads as missing. -/
theorem sum_map_len_mask (ts : List Table) :
    (ts.map (fun t => (t.rows.map (maskRow t)).length)).sum
      = (ts.map (fun t => t.rows.length)).sum := by
  induction ts with
  | nil => rfl
  | cons t ts ih => simp [ih]

theorem mergeTables_spec (ts : List Table) :
    (mergeTables ts).rows.length = (ts.map (fun t => t.rows.length)).sum
    ∧ (∀ c, c ∈ (mergeTables ts).cols ↔ ∃ t ∈ ts, c ∈ t.cols)
    ∧ ((∀ t ∈ ts, t.cols.Nodup) → (mergeTables ts).cols.Nodup)
    ∧ (∀ i, i < ts.length →
        ((mergeTables ts).rows.drop (rowOffset ts i)).take
            (ts.getD i emptyTable).rows.length
          = (ts.getD i emptyTable).rows.map (maskRow (ts.getD i emptyTable)))
    ∧ (∀ (t : Table) (r : Row) (c : String), c ∉ t.cols → maskRow t r c = Cell.na) := by
  refine ⟨?_, ?_, ?_, ?_, ?_⟩
  · show ((ts.map (fun t => t.rows.map (maskRow t))).flatten).length = _
    rw [List.length_flatten, List.map_map]
    exact sum_map_len_mask ts
  · intro c
    constructor
    · intro hc
      rcases ((unionCols_aux ts []).1 c).mp hc with h | h
      · simp at h
      · exact h
    · intro hc
      exact ((unionCols_aux ts []).1 c).mpr (Or.inr hc)
  · intro hts
    exact (unionCols_aux ts []).2 List.nodup_nil hts
  · exact flatten_drop_take ts
  · intro t r c hc
    simp [maskRow, hc]

theorem mergeTables_spec_witness :
    (mergeTables [exMergeT1, exMergeT2]).rows.length
        = ([exMergeT1, exMergeT2].map (fun t => t.rows.length)).sum
    ∧ ((mergeTables [exMergeT1, exMergeT2]).rows.drop
          (rowOffset [exMergeT1, exMergeT2] 1)).take
        (([exMergeT1, exMergeT2].getD 1 emptyTable).rows.length)
      = ([exMergeT1, exMergeT2].getD 1 emptyTable).rows.map
          (maskRow ([exMergeT1, exMergeT2].getD 1 emptyTable))
    ∧ (mergeTables [exMergeT1, exMergeT2]).cols.Nodup :=
  ⟨(mergeTables_spec [exMergeT1, exMergeT2]).1,
   (mergeTables_spec [exMergeT1, exMergeT2]).2.2.2.1 1 (by decide),
   (mergeTables_spec [exMergeT1, exMergeT2]).2.2.1 (by decide)⟩

theorem listMin_eq_none : ∀ l : List ℚ, listMin l = none ↔ l = []
  | [] => by simp [listMin]
  | a :: l => by
      rw [listMin]
      rcases hM : listMin l with _ | m <;> simp

theorem listMin_spec : ∀ (l : List ℚ) (m : ℚ), listMin l = some m →
    m ∈ l ∧ ∀ v ∈ l, m ≤ v
  | [], m => by simp [listMin]
  | a :: l, m => by
      intro h
      rw [listMin] at h
      rcases hM : listMin l with _ | m' <;> rw [hM] at h
      · obtain rfl : a = m := by injection h
        obtain rfl : l = [] := (listMin_eq_none l).mp hM
        exact ⟨List.mem_singleton_self a, by simp⟩
      · obtain rfl : min a m' = m := by injection h
        obtain ⟨hmem, hle⟩ := listMin_spec l m' hM
        constructor
        · rcases min_choice a m' with h | h <;> rw [h]
          · exact List.mem_cons_self _ _
          · exact List.mem_cons_of_mem _ hmem
        · intro v hv
          rcases List.mem_cons.mp hv with rfl | hv
          · exact min_le_left _ _
          · exact le_trans (min_le_right _ _) (hle v hv)

theorem le_foldr_max : ∀ (xs : List ℕ) (a : ℕ), a ∈ xs → a ≤ xs.foldr max 0
  | [], a => by simp
  | x :: xs, a => by
      intro ha
      rcases List.mem_cons.mp ha with rfl | ha
      · exact le_max_left _ _
      · exact le_trans (le_foldr_max xs a ha) (le_max_right _ _)

theorem foldr_max_mem : ∀ xs : List ℕ, xs.foldr max 0 = 0 ∨ xs.foldr max 0 ∈ xs
  | [] => Or.inl rfl
  | x :: xs => by
      rcases foldr_max_mem xs with h | h
      · rw [List.foldr_cons, h]
        exact Or.inr (by simp)
      · rcases max_choice x (xs.foldr max 0) with hc | hc <;>
          rw [List.foldr_cons, hc]
        · exact Or.inr (List.mem_cons_self _ _)
        · exact Or.inr (List.mem_cons_of_mem _ h)

theorem count_le_maxCount (l : List ℚ) (v : ℚ) (hv : v ∈ l) :
    l.count v ≤ maxCount l :=
  le_foldr_max _ _ (List.mem_map_of_mem _ hv)

theorem maxCount_attained (l : List ℚ) (hne : l ≠ []) :
    ∃ v ∈ l, l.count v = maxCount l := by
  rcases foldr_max_mem (l.map fun v => l.count v) with h0 | hmem
  · exfalso
    obtain ⟨x, hx⟩ := List.exists_mem_of_ne_nil l hne
    have h1 : 0 < l.count x := List.count_pos_iff.mpr hx
    have h2 := count_le_maxCount l x hx
    have h3 : maxCount l = 0 := h0
    omega
  · obtain ⟨v, hv, hcnt⟩ := List.mem_map.mp hmem
    exact ⟨v, hv, hcnt⟩

theorem modeHead_eq_none (l : List ℚ) : modeHead l = none ↔ l = [] := by
  constructor
  · intro h
    by_contra hne
    obtain ⟨v, hv, hcnt⟩ := maxCount_attained l hne
    have hvf : v ∈ l.filter (fun v => decide (l.count v = maxCount l)) :=
      List.mem_filter.mpr ⟨hv, by simp [hcnt]⟩
    rcases hLM : listMin (l.filter (fun v => decide (l.count v = maxCount l)))
      with _ | m
    · rw [(listMin_eq_none _).mp hLM] at hvf
      simp at hvf
    · rw [modeHead, hLM] at h
      simp at h
  · intro h
    subst h
    rfl

theorem modeHead_isMode (l : List ℚ) (m : ℚ) (h : modeHead l = some m) :
    isMode l m := by
  rw [modeHead] at h
  obtain ⟨hmem, _⟩ := listMin_spec _ m h
  have hf := List.mem_filter.mp hmem
  refine ⟨hf.1, ?_⟩
  intro v hv
  have hcnt : l.count m = maxCount l := by simpa using hf.2
  rw [hcnt]
  exact count_le_maxCount l v hv

theorem modeOrMean_spec (l : List ℚ) :
    (l ≠ [] → ∃ m, modeOrMean l = some m ∧ isMode l m)
    ∧ (l = [] → modeOrMean l = none) := by
  constructor
  · intro hne
    rcases hM : modeHead l with _ | m
    · exact absurd ((modeHead_eq_none l).mp hM) hne
    · exact ⟨m, by rw [modeOrMean, hM], modeHead_isMode l m hM⟩
  · intro h
    subst h
    rfl

theorem participates_num {r : Row} (h : participates r = true) :
    ∃ q, r "定価" = Cell.num q := by
  cases hc : r "定価" with
  | num q => exact ⟨q, rfl⟩
  | na =>
      have hfalse : participates r = false := by
        simp [participates, discountRatio, hc, toF, fsub, fdiv, fge]
      rw [hfalse] at h
      simp at h
  | str s =>
      have hfalse : participates r = false := by
        simp [participates, discountRatio, hc, toF, fsub, fdiv, fge]
      rw [hfalse] at h
      simp at h
  | date d td =>
      have hfalse : participates r = false := by
        simp [participates, discountRatio, hc, toF, fsub, fdiv, fge]
      rw [hfalse] at h
      simp at h

theorem numVals_parts_ne_nil (rows : List Row) (h : rows ≠ [])
    (hall : ∀ r ∈ rows, participates r = true) :
    numVals (rows.map (fun r => r "定価")) ≠ [] := by
  obtain ⟨r, hr⟩ := List.exists_mem_of_ne_nil rows h
  obtain ⟨q, hq⟩ := participates_num (hall r hr)
  intro hcon
  have hmem : q ∈ numVals (rows.map fun r => r "定価") := by
    rw [numVals, List.mem_filterMap]
    exact ⟨r "定価", List.mem_map_of_mem _ hr, by rw [hq]⟩
  rw [hcon] at hmem
  simp at hmem

theorem aggregatePair_eq_some {latest asin : Cell} {asinRows : List Row}
    {sty : String} {rec : SummaryRecord}
    (h : aggregatePair latest asin asinRows sty = some rec) :
    rec.asin = asin ∧ rec.saleType = sty
    ∧ asinRows.filter (fun r => pandasEq (r "セール分類") (Cell.str sty)) ≠ []
    ∧ rec.participationRate = round1
        ((((asinRows.filter (fun r => pandasEq (r "セール分類") (Cell.str sty))).filter
            participates).length : ℚ)
          / ((asinRows.filter (fun r => pandasEq (r "セール分類") (Cell.str sty))).length : ℚ)
          * 100)
    ∧ rec.listPrice =
        (if 0 < ((asinRows.filter (fun r => pandasEq (r "セール分類") (Cell.str sty))).filter
            participates).length
         then modeOrMean (numVals
           (((asinRows.filter (fun r => pandasEq (r "セール分類") (Cell.str sty))).filter
              participates).map (fun r => r "定価")))
         else modeOrMean (numVals
           ((asinRows.filter (fun r => pandasEq (r "セール分類") (Cell.str sty))).map
              (fun r => r "定価")))) := by
  by_cases hlen :
      0 < (asinRows.filter (fun r => pandasEq (r "セール分類") (Cell.str sty))).length
  · have hunf : aggregatePair latest asin asinRows sty = some
        ⟨asin, sty, latest,
         round1 (if 0 < (asinRows.filter
              (fun r => pandasEq (r "セール分類") (Cell.str sty))).length
            then (((asinRows.filter
                (fun r => pandasEq (r "セール分類") (Cell.str sty))).filter
                  participates).length : ℚ)
              / ((asinRows.filter
                (fun r => pandasEq (r "セール分類") (Cell.str sty))).length : ℚ) * 100
            else 0),
         (if 0 < ((asinRows.filter
              (fun r => pandasEq (r "セール分類") (Cell.str sty))).filter
                participates).length
          then modeOrMean (numVals (((asinRows.filter
              (fun r => pandasEq (r "セール分類") (Cell.str sty))).filter
                participates).map (fun r => r "定価")))
          else modeOrMean (numVals ((asinRows.filter
              (fun r => pandasEq (r "セール分類") (Cell.str sty))).map
                (fun r => r "定価")))),
         (if 0 < ((asinRows.filter
              (fun r => pandasEq (r "セール分類") (Cell.str sty))).filter
                participates).length
          then listMin (numVals (((asinRows.filter
              (fun r => pandasEq (r "セール分類") (Cell.str sty))).filter
                participates).map (fun r => r "販売価格")))
          else none),
         (if 0 < ((asinRows.filter
              (fun r => pandasEq (r "セール分類") (Cell.str sty))).filter
                participates).length
          then listMax (numVals (((asinRows.filter
              (fun r => pandasEq (r "セール分類") (Cell.str sty))).filter
                participates).map (fun r => r "販売価格")))
          else none)⟩ := by
      rw [aggregatePair]
      rw [if_pos hlen]
    rw [hunf] at h
    have hrec := (Option.some.injEq _ _).mp h
    subst hrec
    refine ⟨rfl, rfl, ?_, ?_, rfl⟩
    · exact List.ne_nil_of_length_pos hlen
    · show round1 _ = round1 _
      rw [if_pos hlen]
  · have hnone : aggregatePair latest asin asinRows sty = none := by
      rw [aggregatePair]
      rw [if_neg hlen]
    rw [hnone] at h
    exact absurd h (by simp)

theorem mem_summary_data {t : Table} {dateCol : String} {rec : SummaryRecord}
    (h : rec ∈ summary_data t dateCol) :
    ∃ latest asin sty, sty ∈ saleTypes
      ∧ aggregatePair latest asin
          (t.rows.filter (fun r => pandasEq (r "ASIN") asin)) sty = some rec := by
  rw [summary_data] at h
  by_cases hcols : "セール分類" ∈ t.cols ∧ "定価" ∈ t.cols ∧ "販売価格" ∈ t.cols
  · rw [if_pos hcols] at h
    simp only [List.mem_flatMap, List.mem_filterMap] at h
    obtain ⟨asin, _, sty, hsty, hagg⟩ := h
    exact ⟨_, asin, sty, hsty, hagg⟩
  · rw [if_neg hcols] at h
    simp at h

theorem participates_cexRow1 : participates cexRow1 = true := by
  have h1 : cexRow1 "定価" = Cell.num 100 := by decide
  have h2 : cexRow1 "販売価格" = Cell.num 90 := by decide
  simp only [participates, discountRatio, h1, h2, toF, fsub, fdiv]
  rw [if_neg (by norm_num : ¬(100 : ℚ) = 0)]
  simp only [fge, decide_eq_true_eq]
  norm_num

theorem participates_cexRow2 : participates cexRow2 = false := by
  have h1 : cexRow2 "定価" = Cell.num 100 := by decide
  have h2 : cexRow2 "販売価格" = Cell.num 99 := by decide
  simp only [participates, discountRatio, h1, h2, toF, fsub, fdiv]
  rw [if_neg (by norm_num : ¬(100 : ℚ) = 0)]
  simp only [fge, decide_eq_false_iff_not]
  norm_num

theorem participates_cexRow3 : participates cexRow3 = false := by
  have h1 : cexRow3 "定価" = Cell.num 100 := by decide
  have h2 : cexRow3 "販売価格" = Cell.num 99 := by decide
  simp only [participates, discountRatio, h1, h2, toF, fsub, fdiv]
  rw [if_neg (by norm_num : ¬(100 : ℚ) = 0)]
  simp only [fge, decide_eq_false_iff_not]
  norm_num

theorem labelSubset_cex_eval :
    labelSubset cexTable (Cell.str "A") "MDE" = [cexRow1, cexRow2, cexRow3] := by
  rw [labelSubset]
  rw [show cexTable.rows = [cexRow1, cexRow2, cexRow3] from rfl]
  rw [List.filter_cons_of_pos (by decide), List.filter_cons_of_pos (by decide),
    List.filter_cons_of_pos (by decide), List.filter_nil]

theorem parts_cex_eval :
    (labelSubset cexTable (Cell.str "A") "MDE").filter participates = [cexRow1] := by
  rw [labelSubset_cex_eval]
  rw [List.filter_cons_of_pos participates_cexRow1,
    List.filter_cons_of_neg (by rw [participates_cexRow2]; simp),
    List.filter_cons_of_neg (by rw [participates_cexRow3]; simp), List.filter_nil]

theorem round1_third : round1 ((1 : ℚ) / 3 * 100) = 333 / 10 := by
  have harg : (10 : ℚ) * ((1 : ℚ) / 3 * 100) = 1000 / 3 := by norm_num
  have hfl : ⌊(1000 : ℚ) / 3⌋ = 333 := by
    rw [Int.floor_eq_iff]
    constructor <;> norm_num
  rw [round1, harg, roundHalfEven, hfl]
  rw [if_pos (by norm_num)]
  norm_num

theorem aggregatePair_cex_MDE :
    aggregatePair Cell.na (Cell.str "A") [cexRow1, cexRow2, cexRow3] "MDE"
      = some cexRec := by
  have hsale : [cexRow1, cexRow2, cexRow3].filter
      (fun r => pandasEq (r "セール分類") (Cell.str "MDE"))
      = [cexRow1, cexRow2, cexRow3] := by
    rw [List.filter_cons_of_pos (by decide), List.filter_cons_of_pos (by decide),
      List.filter_cons_of_pos (by decide), List.filter_nil]
  have hpart : [cexRow1, cexRow2, cexRow3].filter participates = [cexRow1] := by
    rw [List.filter_cons_of_pos participates_cexRow1,
      List.filter_cons_of_neg (by rw [participates_cexRow2]; simp),
      List.filter_cons_of_neg (by rw [participates_cexRow3]; simp), List.filter_nil]
  simp only [aggregatePair, hsale, hpart]
  rw [if_pos (by decide : 0 < ([cexRow1, cexRow2, cexRow3] : List Row).length)]
  rw [show cexRec = (⟨Cell.str "A", "MDE", Cell.na, 333 / 10, some 100, some 90,
    some 90⟩ : SummaryRecord) from rfl]
  simp only [Option.some.injEq, SummaryRecord.mk.injEq]
  refine ⟨trivial, trivial, trivial, ?_, ?_, ?_, ?_⟩
  · rw [if_pos (by decide : 0 < ([cexRow1, cexRow2, cexRow3] : List Row).length)]
    rw [show (([cexRow1] : List Row).length : ℚ)
        / (([cexRow1, cexRow2, cexRow3] : List Row).length : ℚ) * 100
      = (1 : ℚ) / 3 * 100 from by norm_num]
    exact round1_third
  · rw [if_pos (by decide : 0 < ([cexRow1] : List Row).length)]
    rw [show ([cexRow1] : List Row).map (fun r => r "定価") = [Cell.num 100] from
      by decide]
    decide
  · rw [if_pos (by decide : 0 < ([cexRow1] : List Row).length)]
    rw [show ([cexRow1] : List Row).map (fun r => r "販売価格") = [Cell.num 90] from
      by decide]
    decide
  · rw [if_pos (by decide : 0 < ([cexRow1] : List Row).length)]
    rw [show ([cexRow1] : List Row).map (fun r => r "販売価格") = [Cell.num 90] from
      by decide]
    decide

theorem aggregatePair_cex_big :
    aggregatePair Cell.na (Cell.str "A") [cexRow1, cexRow2, cexRow3] "ビッグセール"
      = none := by
  have hsale : [cexRow1, cexRow2, cexRow3].filter
      (fun r => pandasEq (r "セール分類") (Cell.str "ビッグセール")) = [] := by
    rw [List.filter_cons_of_neg (by decide), List.filter_cons_of_neg (by decide),
      List.filter_cons_of_neg (by decide), List.filter_nil]
  simp only [aggregatePair, hsale]
  rw [if_neg (by decide : ¬0 < ([] : List Row).length)]

theorem aggregatePair_cex_early :
    aggregatePair Cell.na (Cell.str "A") [cexRow1, cexRow2, cexRow3]
      "ビッグセールのアーリー" = none := by
  have hsale : [cexRow1, cexRow2, cexRow3].filter
      (fun r => pandasEq (r "セール分類") (Cell.str "ビッグセールのアーリー")) = [] := by
    rw [List.filter_cons_of_neg (by decide), List.filter_cons_of_neg (by decide),
      List.filter_cons_of_neg (by decide), List.filter_nil]
  simp only [aggregatePair, hsale]
  rw [if_neg (by decide : ¬0 < ([] : List Row).length)]

theorem summary_data_cexTable : summary_data cexTable "日付" = [cexRec] := by
  rw [summary_data, if_pos (by decide : "セール分類" ∈ cexTable.cols
    ∧ "定価" ∈ cexTable.cols ∧ "販売価格" ∈ cexTable.cols)]
  rw [show cexTable.rows.map (fun r => r "ASIN")
      = [Cell.str "A", Cell.str "A", Cell.str "A"] from by decide]
  rw [show uniqueCells [Cell.str "A", Cell.str "A", Cell.str "A"] = [Cell.str "A"]
    from by
      rw [uniqueCells]
      rw [show [Cell.str "A", Cell.str "A"].filter
          (fun b => decide (b ≠ Cell.str "A")) = [] from by decide]
      rw [uniqueCells]]
  rw [List.flatMap_cons, List.flatMap_nil, List.append_nil]
  simp only []
  rw [show cexTable.rows.filter (fun r => pandasEq (r "ASIN") (Cell.str "A"))
      = [cexRow1, cexRow2, cexRow3] from by
    rw [show cexTable.rows = [cexRow1, cexRow2, cexRow3] from rfl]
    rw [List.filter_cons_of_pos (by decide), List.filter_cons_of_pos (by decide),
      List.filter_cons_of_pos (by decide), List.filter_nil]]
  rw [if_neg (by decide : ¬"サブカテゴリーBSR" ∈ cexTable.cols)]
  rw [show saleTypes = ["MDE", "ビッグセール", "ビッグセールのアーリー"] from rfl]
  simp only [List.filterMap_cons, List.filterMap_nil, aggregatePair_cex_MDE,
    aggregatePair_cex_big, aggregatePair_cex_early]

/-- C1, counterexample to the claim as stated: on a label subset of three
rows exactly one of which is discounted by at least 5%, the emitted
participation rate is the rounded `33.3`, not `100 * 1 / 3`. -/
theorem summary_rate_cex :
    (summary_data cexTable "日付").map (fun rec => rec.participationRate)
      = [333 / 10]
    ∧ (labelSubset cexTable (Cell.str "A") "MDE").length = 3
    ∧ ((labelSubset cexTable (Cell.str "A") "MDE").filter participates).length = 1
    ∧ (333 / 10 : ℚ) ≠ 100 * 1 / 3 := by
  refine ⟨?_, ?_, ?_, ?_⟩
  · rw [summary_data_cexTable]
    rfl
  · rw [labelSubset_cex_eval]
    rfl
  · rw [parts_cex_eval]
    rfl
  · norm_num

/-- C1 (amended): for every (ASIN, label) pair of the aggregation, no
record is emitted when the label subset is empty; a subset row
participates exactly when its discount ratio
`(list price − sale price) / list price` is at least `0.05`; and each
emitted record's participation rate is `100 × participating / total`
rounded to one decimal digit (Python `round`, half to even). -/
theorem summary_rate_spec (t : Table) (dateCol : String) :
    (∀ rec ∈ summary_data t dateCol,
      labelSubset t rec.asin rec.saleType ≠ []
      ∧ rec.participationRate
          = round1 (100 *
              (((labelSubset t rec.asin rec.saleType).filter
                  (fun r => fge (fdiv (fsub (toF (r "定価")) (toF (r "販売価格")))
                    (toF (r "定価"))) (5 / 100))).length : ℚ)
              / ((labelSubset t rec.asin rec.saleType).length : ℚ)))
    ∧ ∀ (asin : Cell) (sty : String), sty ∈ saleTypes →
        labelSubset t asin sty = [] →
        ∀ rec ∈ summary_data t dateCol, ¬(rec.asin = asin ∧ rec.saleType = sty) := by
  have hsubset : ∀ (asin : Cell) (sty : String),
      (t.rows.filter (fun r => pandasEq (r "ASIN") asin)).filter
          (fun r => pandasEq (r "セール分類") (Cell.str sty))
        = labelSubset t asin sty := by
    intro asin sty
    rw [List.filter_filter]
    exact List.filter_congr (fun r _ => by rw [Bool.and_comm])
  constructor
  · intro rec hrec
    obtain ⟨latest, asin, sty, hsty, hagg⟩ := mem_summary_data hrec
    obtain ⟨ha, hs, hne, hrate, _⟩ := aggregatePair_eq_some hagg
    rw [ha, hs]
    rw [hsubset asin sty] at hne hrate
    refine ⟨hne, ?_⟩
    rw [hrate]
    have hfun : (labelSubset t asin sty).filter
        (fun r => fge (fdiv (fsub (toF (r "定価")) (toF (r "販売価格")))
          (toF (r "定価"))) (5 / 100))
        = (labelSubset t asin sty).filter participates := rfl
    rw [hfun]
    congr 1
    ring
  · rintro asin sty hsty hempty rec hrec ⟨ha, hs⟩
    obtain ⟨latest, asin', sty', hsty', hagg⟩ := mem_summary_data hrec
    obtain ⟨ha', hs', hne, _, _⟩ := aggregatePair_eq_some hagg
    rw [hsubset asin' sty'] at hne
    have h1 : asin' = asin := by rw [← ha', ha]
    have h2 : sty' = sty := by rw [← hs', hs]
    rw [h1, h2] at hne
    exact hne hempty

theorem summary_rate_spec_witness :
    labelSubset cexTable cexRec.asin cexRec.saleType ≠ []
    ∧ cexRec.participationRate
        = round1 (100 *
            (((labelSubset cexTable cexRec.asin cexRec.saleType).filter
                (fun r => fge (fdiv (fsub (toF (r "定価")) (toF (r "販売価格")))
                  (toF (r "定価"))) (5 / 100))).length : ℚ)
            / ((labelSubset cexTable cexRec.asin cexRec.saleType).length : ℚ)) :=
  (summary_rate_spec cexTable "日付").1 cexRec
    (by rw [summary_data_cexTable]; exact List.mem_singleton_self _)

/-- C4: each emitted record's reference price is a statistical mode of
the list prices of the participating rows when there are any (a mode is
always defined there), and otherwise a mode of the list prices of the
whole label subset when one is defined, the mean — missing for an empty
or all-missing column — when not. -/
theorem summary_refprice_spec (t : Table) (dateCol : String) :
    ∀ rec ∈ summary_data t dateCol,
      ((labelSubset t rec.asin rec.saleType).filter participates ≠ [] →
        ∃ m, rec.listPrice = some m
          ∧ isMode (numVals (((labelSubset t rec.asin rec.saleType).filter
              participates).map (fun r => r "定価"))) m)
      ∧ ((labelSubset t rec.asin rec.saleType).filter participates = [] →
          (numVals ((labelSubset t rec.asin rec.saleType).map
              (fun r => r "定価")) ≠ [] →
            ∃ m, rec.listPrice = some m
              ∧ isMode (numVals ((labelSubset t rec.asin rec.saleType).map
                  (fun r => r "定価"))) m)
          ∧ (numVals ((labelSubset t rec.asin rec.saleType).map
              (fun r => r "定価")) = [] → rec.listPrice = none)) := by
  intro rec hrec
  obtain ⟨latest, asin, sty, hsty, hagg⟩ := mem_summary_data hrec
  obtain ⟨ha, hs, _, _, hlist⟩ := aggregatePair_eq_some hagg
  have hsubset : (t.rows.filter (fun r => pandasEq (r "ASIN") asin)).filter
      (fun r => pandasEq (r "セール分類") (Cell.str sty))
      = labelSubset t asin sty := by
    rw [List.filter_filter]
    exact List.filter_congr (fun r _ => by rw [Bool.and_comm])
  rw [hsubset] at hlist
  rw [ha, hs]
  constructor
  · intro hne
    rw [if_pos (List.length_pos.mpr hne)] at hlist
    have hvals : numVals (((labelSubset t asin sty).filter participates).map
        (fun r => r "定価")) ≠ [] := by
      refine numVals_parts_ne_nil _ hne ?_
      intro r hr
      exact (List.mem_filter.mp hr).2
    obtain ⟨m, hm, hmode⟩ := (modeOrMean_spec _).1 hvals
    exact ⟨m, by rw [hlist, hm], hmode⟩
  · intro hemp
    have hlen : ¬0 < ((labelSubset t asin sty).filter participates).length := by
      rw [hemp]
      simp
    rw [if_neg hlen] at hlist
    constructor
    · intro hvne
      obtain ⟨m, hm, hmode⟩ := (modeOrMean_spec _).1 hvne
      exact ⟨m, by rw [hlist, hm], hmode⟩
    · intro hveq
      rw [hlist, (modeOrMean_spec _).2 hveq]

theorem summary_refprice_spec_witness :
    (labelSubset cexTable cexRec.asin cexRec.saleType).filter participates ≠ []
    ∧ ∃ m, cexRec.listPrice = some m
        ∧ isMode (numVals (((labelSubset cexTable cexRec.asin
            cexRec.saleType).filter participates).map (fun r => r "定価"))) m := by
  have hne : (labelSubset cexTable cexRec.asin cexRec.saleType).filter
      participates ≠ [] := by
    rw [show cexRec.asin = Cell.str "A" from rfl,
      show cexRec.saleType = "MDE" from rfl, parts_cex_eval]
    simp
  exact ⟨hne,
    ((summary_refprice_spec cexTable "日付") cexRec
      (by rw [summary_data_cexTable]; exact List.mem_singleton_self _)).1 hne⟩

theorem getD_map_of_lt {α β : Type _} (g : α → β) (l : List α) (i : ℕ)
    (hi : i < l.length) (d : α) (d2 : β) :
    (l.map g).getD i d2 = g (l.getD i d) := by
  induction l generalizing i with
  | nil => simp at hi
  | cons a l ih =>
      cases i with
      | zero => rfl
      | succ i => exact ih i (by simpa using hi)

theorem mem_insertAt {α : Type _} (a : α) (i : ℕ) (x : α) (l : List α) :
    a ∈ insertAt i x l ↔ a = x ∨ a ∈ l := by
  rw [insertAt]
  constructor
  · intro h
    rcases List.mem_append.mp h with h | h
    · exact Or.inr (List.mem_of_mem_take h)
    · rcases List.mem_cons.mp h with rfl | h
      · exact Or.inl rfl
      · exact Or.inr (List.mem_of_mem_drop h)
  · intro h
    rcases h with rfl | h
    · exact List.mem_append.mpr (Or.inr (List.mem_cons_self _ _))
    · rw [← List.take_append_drop i l] at h
      rcases List.mem_append.mp h with h | h
      · exact List.mem_append.mpr (Or.inl h)
      · exact List.mem_append.mpr (Or.inr (List.mem_cons_of_mem _ h))

theorem mem_setCol_cols (n : String) (f : Row → Cell) (t : Table) (c : String) :
    c ∈ (setCol n f t).cols ↔ c = n ∨ c ∈ t.cols := by
  show c ∈ (if n ∈ t.cols then t.cols else t.cols ++ [n]) ↔ _
  by_cases hn : n ∈ t.cols
  · rw [if_pos hn]
    constructor
    · exact Or.inr
    · rintro (rfl | h)
      exacts [hn, h]
  · rw [if_neg hn]
    rw [List.mem_append, List.mem_singleton]
    tauto

theorem setCol_len (n : String) (f : Row → Cell) (t : Table) :
    (setCol n f t).rows.length = t.rows.length := by
  show (t.rows.map _).length = _
  rw [List.length_map]

theorem setCol_val (n : String) (f : Row → Cell) (t : Table) (i : ℕ)
    (hi : i < t.rows.length) (c : String) :
    ((setCol n f t).rows.getD i defaultRow) c
      = if c = n then f (t.rows.getD i defaultRow)
        else (t.rows.getD i defaultRow) c := by
  rw [show (setCol n f t).rows
      = t.rows.map (fun r c => if c = n then f r else r c) from rfl,
    getD_map_of_lt _ t.rows i hi defaultRow defaultRow]

theorem dateColOf_some {t : Table} {dc : String} (h : dateColOf t = some dc) :
    dc = "日付" ∨ dc = "Date" := by
  rw [dateColOf] at h
  split_ifs at h
  · exact Or.inl (by injection h with h; exact h.symm)
  · exact Or.inr (by injection h with h; exact h.symm)

theorem classifyStep_of_none {periods : List (ℤ × ℤ × String)} {t : Table}
    (h : dateColOf t = none) : classifyStep periods t = t := by
  rw [classifyStep, h]

theorem classifyStep_of_some {periods : List (ℤ × ℤ × String)} {t : Table}
    {dc : String} (h : dateColOf t = some dc) :
    classifyStep periods t = classifyApply periods dc t := by
  rw [classifyStep, h]

theorem pre_len (periods : List (ℤ × ℤ × String)) (a : String) (t : Table) :
    (classifyStep periods (insertASINCol a t)).rows.length = t.rows.length := by
  rcases hdc : dateColOf (insertASINCol a t) with _ | dc
  · rw [classifyStep_of_none hdc]
    show (t.rows.map _).length = _
    rw [List.length_map]
  · rw [classifyStep_of_some hdc]
    show (((t.rows.map _).map _).map _).length = _
    rw [List.length_map, List.length_map, List.length_map]

theorem pre_mem (periods : List (ℤ × ℤ × String)) (a : String) (t : Table)
    (c : String) (h1 : c ≠ "ASIN") (h2 : c ≠ "セール分類") :
    c ∈ (classifyStep periods (insertASINCol a t)).cols ↔ c ∈ t.cols := by
  rcases hdc : dateColOf (insertASINCol a t) with _ | dc
  · rw [classifyStep_of_none hdc]
    show c ∈ "ASIN" :: t.cols ↔ _
    rw [List.mem_cons]
    simp [h1]
  · rw [classifyStep_of_some hdc]
    show c ∈ insertAt 2 "セール分類" ("ASIN" :: t.cols) ↔ _
    rw [mem_insertAt, List.mem_cons]
    simp [h1, h2]

theorem pre_val (periods : List (ℤ × ℤ × String)) (a : String) (t : Table)
    (c : String) (i : ℕ) (hi : i < t.rows.length)
    (h1 : c ≠ "ASIN") (h2 : c ≠ "セール分類") (h3 : c ≠ "日付") (h4 : c ≠ "Date") :
    ((classifyStep periods (insertASINCol a t)).rows.getD i defaultRow) c
      = (t.rows.getD i defaultRow) c := by
  rcases hdc : dateColOf (insertASINCol a t) with _ | dc
  · rw [classifyStep_of_none hdc]
    rw [show (insertASINCol a t).rows
        = t.rows.map (fun r c => if c = "ASIN" then Cell.str a else r c) from rfl,
      getD_map_of_lt _ t.rows i hi defaultRow defaultRow]
    exact if_neg h1
  · have hdcne : c ≠ dc := by
      rcases dateColOf_some hdc with rfl | rfl
      · exact h3
      · exact h4
    rw [classifyStep_of_some hdc]
    rw [show (classifyApply periods dc (insertASINCol a t)).rows
        = (((t.rows.map (fun r c => if c = "ASIN" then Cell.str a else r c)).map
            (fun r c => if c = dc then coerceDate (r c) else r c)).map
            (fun r c => if c = "セール分類" then classifyCell periods (r dc)
              else r c)) from rfl]
    rw [getD_map_of_lt _ _ i (by
      rw [List.length_map, List.length_map]
      exact hi) defaultRow defaultRow]
    rw [if_neg h2]
    rw [getD_map_of_lt _ _ i (by rw [List.length_map]; exact hi)
      defaultRow defaultRow]
    rw [if_neg hdcne]
    rw [getD_map_of_lt _ t.rows i hi defaultRow defaultRow]
    exact if_neg h1

theorem deriveHanbai_mem (t : Table) (c : String) (hc : c ≠ "販売価格") :
    c ∈ (deriveHanbai t).cols ↔ c ∈ t.cols := by
  rw [deriveHanbai]
  split_ifs
  · rw [mem_setCol_cols]
    simp [hc]
  · rfl

theorem deriveHanbai_len (t : Table) :
    (deriveHanbai t).rows.length = t.rows.length := by
  rw [deriveHanbai]
  split_ifs
  · exact setCol_len _ _ _
  · rfl

theorem deriveHanbai_val (t : Table) (c : String) (i : ℕ)
    (hi : i < t.rows.length) (hc : c ≠ "販売価格") :
    ((deriveHanbai t).rows.getD i defaultRow) c
      = (t.rows.getD i defaultRow) c := by
  rw [deriveHanbai]
  split_ifs
  · rw [setCol_val _ _ _ i hi, if_neg hc]
  · rfl

theorem deriveSubBSR_mem (t : Table) (c : String) (hc : c ≠ "サブカテゴリーBSR") :
    c ∈ (deriveSubBSR t).cols ↔ c ∈ t.cols := by
  rw [deriveSubBSR]
  split_ifs
  · rw [mem_setCol_cols]
    simp [hc]
  · rfl

theorem deriveSubBSR_len (t : Table) :
    (deriveSubBSR t).rows.length = t.rows.length := by
  rw [deriveSubBSR]
  split_ifs
  · exact setCol_len _ _ _
  · rfl

theorem deriveSubBSR_val (t : Table) (c : String) (i : ℕ)
    (hi : i < t.rows.length) (hc : c ≠ "サブカテゴリーBSR") :
    ((deriveSubBSR t).rows.getD i defaultRow) c
      = (t.rows.getD i defaultRow) c := by
  rw [deriveSubBSR]
  split_ifs
  · rw [setCol_val _ _ _ i hi, if_neg hc]
  · rfl

theorem dropLegacy_mem (t : Table) (c : String) :
    c ∈ (dropLegacy t).cols ↔ c ∈ t.cols ∧ c ∉ colsToDrop := by
  show c ∈ t.cols.filter (fun c => decide (c ∉ colsToDrop)) ↔ _
  rw [List.mem_filter]
  simp

theorem dropLegacy_len (t : Table) :
    (dropLegacy t).rows.length = t.rows.length := by
  show (t.rows.map _).length = _
  rw [List.length_map]

theorem dropLegacy_val (t : Table) (c : String) (i : ℕ)
    (hi : i < t.rows.length) (hc : c ∉ colsToDrop) :
    ((dropLegacy t).rows.getD i defaultRow) c
      = (t.rows.getD i defaultRow) c := by
  rw [show (dropLegacy t).rows
      = t.rows.map (fun r c => if c ∈ colsToDrop then Cell.na else r c) from rfl,
    getD_map_of_lt _ t.rows i hi defaultRow defaultRow]
  exact if_neg hc

theorem post_mem (t : Table) (c : String) (h1 : c ≠ "販売価格")
    (h2 : c ≠ "サブカテゴリーBSR") :
    c ∈ (dropLegacy (deriveSubBSR (deriveHanbai t))).cols
      ↔ c ∈ t.cols ∧ c ∉ colsToDrop := by
  rw [dropLegacy_mem, deriveSubBSR_mem _ _ h2, deriveHanbai_mem _ _ h1]

theorem post_len (t : Table) :
    (dropLegacy (deriveSubBSR (deriveHanbai t))).rows.length = t.rows.length := by
  rw [dropLegacy_len, deriveSubBSR_len, deriveHanbai_len]

theorem post_val (t : Table) (c : String) (i : ℕ) (hi : i < t.rows.length)
    (h1 : c ≠ "販売価格") (h2 : c ≠ "サブカテゴリーBSR") (h3 : c ∉ colsToDrop) :
    ((dropLegacy (deriveSubBSR (deriveHanbai t))).rows.getD i defaultRow) c
      = (t.rows.getD i defaultRow) c := by
  rw [dropLegacy_val _ _ i (by rw [deriveSubBSR_len, deriveHanbai_len]; exact hi) h3,
    deriveSubBSR_val _ _ i (by rw [deriveHanbai_len]; exact hi) h2,
    deriveHanbai_val _ _ i hi h1]

theorem deriveTeika_both {t : Table} (hf : fbaColOf t ∈ t.cols)
    (hl : listColOf t ∈ t.cols) :
    deriveTeika t
      = setCol "定価" (fun r => cellMax (r (fbaColOf t)) (r (listColOf t))) t := by
  rw [deriveTeika, if_pos ⟨hf, hl⟩]

theorem deriveTeika_fba {t : Table} (hf : fbaColOf t ∈ t.cols)
    (hl : listColOf t ∉ t.cols) :
    deriveTeika t = setCol "定価" (fun r => r (fbaColOf t)) t := by
  rw [deriveTeika, if_neg (by tauto), if_pos hf]

theorem deriveTeika_list {t : Table} (hf : fbaColOf t ∉ t.cols)
    (hl : listColOf t ∈ t.cols) :
    deriveTeika t = setCol "定価" (fun r => r (listColOf t)) t := by
  rw [deriveTeika, if_neg (by tauto), if_neg hf, if_pos hl]

theorem deriveTeika_skip {t : Table} (hf : fbaColOf t ∉ t.cols)
    (hl : listColOf t ∉ t.cols) : deriveTeika t = t := by
  rw [deriveTeika, if_neg (by tauto), if_neg hf, if_neg hl]

theorem fbaColOf_cases (t : Table) :
    fbaColOf t = "FBA 価格(￥)" ∨ fbaColOf t = "FBA価格(￥)" := by
  rw [fbaColOf]
  split_ifs <;> simp

theorem listColOf_cases (t : Table) :
    listColOf t = "List 価格(￥)" ∨ listColOf t = "List価格(￥)" := by
  rw [listColOf]
  split_ifs <;> simp

theorem deriveTeika_len (t : Table) :
    (deriveTeika t).rows.length = t.rows.length := by
  rw [deriveTeika]
  split_ifs <;> first | exact setCol_len _ _ _ | rfl

/-- C5: after enrichment, the four legacy FBA/List price columns are
gone; when both legacy prices are present (each looked up by its spaced
spelling first) the derived `定価` column holds their element-wise
maximum, when exactly one is present it holds that column's values, and
when neither is present the `定価` column is absent (for an input that
did not already carry one). -/
theorem enrich_teika_spec (ps : List (ℤ × ℤ × String)) (a : String) (t : Table)
    (hteika : "定価" ∉ t.cols) :
    (enrichTable ps a t).rows.length = t.rows.length
    ∧ "FBA 価格(￥)" ∉ (enrichTable ps a t).cols
    ∧ "FBA価格(￥)" ∉ (enrichTable ps a t).cols
    ∧ "List 価格(￥)" ∉ (enrichTable ps a t).cols
    ∧ "List価格(￥)" ∉ (enrichTable ps a t).cols
    ∧ (fbaColOf t ∈ t.cols → listColOf t ∈ t.cols →
        "定価" ∈ (enrichTable ps a t).cols
        ∧ ∀ i, i < t.rows.length →
            ((enrichTable ps a t).rows.getD i defaultRow) "定価"
              = cellMax ((t.rows.getD i defaultRow) (fbaColOf t))
                  ((t.rows.getD i defaultRow) (listColOf t)))
    ∧ (fbaColOf t ∈ t.cols → listColOf t ∉ t.cols →
        "定価" ∈ (enrichTable ps a t).cols
        ∧ ∀ i, i < t.rows.length →
            ((enrichTable ps a t).rows.getD i defaultRow) "定価"
              = (t.rows.getD i defaultRow) (fbaColOf t))
    ∧ (fbaColOf t ∉ t.cols → listColOf t ∈ t.cols →
        "定価" ∈ (enrichTable ps a t).cols
        ∧ ∀ i, i < t.rows.length →
            ((enrichTable ps a t).rows.getD i defaultRow) "定価"
              = (t.rows.getD i defaultRow) (listColOf t))
    ∧ (fbaColOf t ∉ t.cols → listColOf t ∉ t.cols →
        "定価" ∉ (enrichTable ps a t).cols) := by
  have hfbaP : fbaColOf t ≠ "ASIN" ∧ fbaColOf t ≠ "セール分類"
      ∧ fbaColOf t ≠ "日付" ∧ fbaColOf t ≠ "Date" := by
    rcases fbaColOf_cases t with h | h <;> rw [h] <;>
      exact ⟨by decide, by decide, by decide, by decide⟩
  have hlistP : listColOf t ≠ "ASIN" ∧ listColOf t ≠ "セール分類"
      ∧ listColOf t ≠ "日付" ∧ listColOf t ≠ "Date" := by
    rcases listColOf_cases t with h | h <;> rw [h] <;>
      exact ⟨by decide, by decide, by decide, by decide⟩
  have hfba_eq : fbaColOf (classifyStep ps (insertASINCol a t)) = fbaColOf t := by
    rw [fbaColOf, fbaColOf]
    exact if_congr (pre_mem ps a t "FBA 価格(￥)" (by decide) (by decide)) rfl rfl
  have hlist_eq : listColOf (classifyStep ps (insertASINCol a t)) = listColOf t := by
    rw [listColOf, listColOf]
    exact if_congr (pre_mem ps a t "List 価格(￥)" (by decide) (by decide)) rfl rfl
  have hfba_mem : fbaColOf t ∈ (classifyStep ps (insertASINCol a t)).cols
      ↔ fbaColOf t ∈ t.cols :=
    pre_mem ps a t _ hfbaP.1 hfbaP.2.1
  have hlist_mem : listColOf t ∈ (classifyStep ps (insertASINCol a t)).cols
      ↔ listColOf t ∈ t.cols :=
    pre_mem ps a t _ hlistP.1 hlistP.2.1
  refine ⟨?_, ?_, ?_, ?_, ?_, ?_, ?_, ?_, ?_⟩
  · show (dropLegacy (deriveSubBSR (deriveHanbai (deriveTeika
      (classifyStep ps (insertASINCol a t)))))).rows.length = t.rows.length
    rw [post_len, deriveTeika_len, pre_len]
  · intro h
    exact ((post_mem _ _ (by decide) (by decide)).mp h).2 (by decide)
  · intro h
    exact ((post_mem _ _ (by decide) (by decide)).mp h).2 (by decide)
  · intro h
    exact ((post_mem _ _ (by decide) (by decide)).mp h).2 (by decide)
  · intro h
    exact ((post_mem _ _ (by decide) (by decide)).mp h).2 (by decide)
  · intro hf hl
    have htk := deriveTeika_both (t := classifyStep ps (insertASINCol a t))
      (by rw [hfba_eq]; exact hfba_mem.mpr hf)
      (by rw [hlist_eq]; exact hlist_mem.mpr hl)
    rw [hfba_eq, hlist_eq] at htk
    constructor
    · show "定価" ∈ (dropLegacy (deriveSubBSR (deriveHanbai (deriveTeika
        (classifyStep ps (insertASINCol a t)))))).cols
      rw [htk, post_mem _ _ (by decide) (by decide)]
      exact ⟨(mem_setCol_cols _ _ _ _).mpr (Or.inl rfl), by decide⟩
    · intro i hi
      show ((dropLegacy (deriveSubBSR (deriveHanbai (deriveTeika
        (classifyStep ps (insertASINCol a t)))))).rows.getD i defaultRow) "定価" = _
      rw [htk]
      rw [post_val _ _ i (by rw [setCol_len, pre_len]; exact hi)
        (by decide) (by decide) (by decide)]
      rw [setCol_val _ _ _ i (by rw [pre_len]; exact hi), if_pos rfl]
      rw [pre_val ps a t _ i hi hfbaP.1 hfbaP.2.1 hfbaP.2.2.1 hfbaP.2.2.2]
      rw [pre_val ps a t _ i hi hlistP.1 hlistP.2.1 hlistP.2.2.1 hlistP.2.2.2]
  · intro hf hl
    have htk := deriveTeika_fba (t := classifyStep ps (insertASINCol a t))
      (by rw [hfba_eq]; exact hfba_mem.mpr hf)
      (by rw [hlist_eq]; intro hx; exact hl (hlist_mem.mp hx))
    rw [hfba_eq] at htk
    constructor
    · show "定価" ∈ (dropLegacy (deriveSubBSR (deriveHanbai (deriveTeika
        (classifyStep ps (insertASINCol a t)))))).cols
      rw [htk, post_mem _ _ (by decide) (by decide)]
      exact ⟨(mem_setCol_cols _ _ _ _).mpr (Or.inl rfl), by decide⟩
    · intro i hi
      show ((dropLegacy (deriveSubBSR (deriveHanbai (deriveTeika
        (classifyStep ps (insertASINCol a t)))))).rows.getD i defaultRow) "定価" = _
      rw [htk]
      rw [post_val _ _ i (by rw [setCol_len, pre_len]; exact hi)
        (by decide) (by decide) (by decide)]
      rw [setCol_val _ _ _ i (by rw [pre_len]; exact hi), if_pos rfl]
      exact pre_val ps a t _ i hi hfbaP.1 hfbaP.2.1 hfbaP.2.2.1 hfbaP.2.2.2
  · intro hf hl
    have htk := deriveTeika_list (t := classifyStep ps (insertASINCol a t))
      (by rw [hfba_eq]; intro hx; exact hf (hfba_mem.mp hx))
      (by rw [hlist_eq]; exact hlist_mem.mpr hl)
    rw [hlist_eq] at htk
    constructor
    · show "定価" ∈ (dropLegacy (deriveSubBSR (deriveHanbai (deriveTeika
        (classifyStep ps (insertASINCol a t)))))).cols
      rw [htk, post_mem _ _ (by decide) (by decide)]
      exact ⟨(mem_setCol_cols _ _ _ _).mpr (Or.inl rfl), by decide⟩
    · intro i hi
      show ((dropLegacy (deriveSubBSR (deriveHanbai (deriveTeika
        (classifyStep ps (insertASINCol a t)))))).rows.getD i defaultRow) "定価" = _
      rw [htk]
      rw [post_val _ _ i (by rw [setCol_len, pre_len]; exact hi)
        (by decide) (by decide) (by decide)]
      rw [setCol_val _ _ _ i (by rw [pre_len]; exact hi), if_pos rfl]
      exact pre_val ps a t _ i hi hlistP.1 hlistP.2.1 hlistP.2.2.1 hlistP.2.2.2
  · intro hf hl
    have htk := deriveTeika_skip (t := classifyStep ps (insertASINCol a t))
      (by rw [hfba_eq]; intro hx; exact hf (hfba_mem.mp hx))
      (by rw [hlist_eq]; intro hx; exact hl (hlist_mem.mp hx))
    intro h
    have h2 : "定価" ∈ (dropLegacy (deriveSubBSR (deriveHanbai (deriveTeika
        (classifyStep ps (insertASINCol a t)))))).cols := h
    rw [htk, post_mem _ _ (by decide) (by decide)] at h2
    exact hteika ((pre_mem ps a t "定価" (by decide) (by decide)).mp h2.1)

theorem enrich_teika_spec_witness :
    "FBA 価格(￥)" ∉ (enrichTable [] "X" exEnrichT).cols
    ∧ "定価" ∈ (enrichTable [] "X" exEnrichT).cols
    ∧ ((enrichTable [] "X" exEnrichT).rows.getD 0 defaultRow) "定価"
        = cellMax ((exEnrichT.rows.getD 0 defaultRow) (fbaColOf exEnrichT))
            ((exEnrichT.rows.getD 0 defaultRow) (listColOf exEnrichT)) :=
  ⟨(enrich_teika_spec [] "X" exEnrichT (by decide)).2.1,
   ((enrich_teika_spec [] "X" exEnrichT (by decide)).2.2.2.2.2.1
      (by decide) (by decide)).1,
   ((enrich_teika_spec [] "X" exEnrichT (by decide)).2.2.2.2.2.1
      (by decide) (by decide)).2 0 (by decide)⟩
